import Mathlib

/-!
# Verification of the JOB_SCRAPER pipeline specification

This file gives a shallow embedding of the JOB_SCRAPER repository's data
pipeline (Bronze → Silver → Gold) and its Next.js presentation layer, and
proves the specification's testable properties against it.

The repository ships the presentation layer (`web/app/api/jobs/route.ts`,
`web/components/Pagination.tsx`, `web/app/jobs/page.tsx`) whose code is
embedded here directly.  The Python pipeline modules (`src/schema.py`,
`src/ingestion/indeed_scraper.py`, `src/storage/bronze.py`,
`src/transformation/normalize.py`, `src/loader/database.py`) are referenced
by the READMEs and run scripts but their sources are not present, so those
components are modelled from the specification, as marked on each
definition.
-/

set_option linter.unusedVariables false

/-- Modelled from the spec: §3 CanonicalJobRecord — the unit of truth after
normalization.  Required fields: `job_title`, `company_name`, `job_url`,
`source_domain`, `scraped_at`; optional `company_location` and
`search_position`.  (The defining module `src/schema.py` is not in the
repository snapshot.) -/
structure CanonicalJobRecord where
  job_title : String
  company_name : String
  job_url : String
  source_domain : String
  scraped_at : Nat
  company_location : Option String := none
  search_position : Option String := none
deriving Repr, DecidableEq

/-- Modelled from the spec: §3 JobFingerprint — a stable identity derived
deterministically from `(job_url, source_domain)`, the natural key. -/
structure JobFingerprint where
  url : String
  domain : String
deriving Repr, DecidableEq

/-- Modelled from the spec: the fingerprint of a record is a pure function
of its natural key `(job_url, source_domain)`. -/
def fingerprint (r : CanonicalJobRecord) : JobFingerprint :=
  ⟨r.job_url, r.source_domain⟩

/-- Modelled from the spec: §4.1 — a candidate mapping presented to the
validator; any field may be absent. -/
structure Candidate where
  job_title : Option String := none
  company_name : Option String := none
  job_url : Option String := none
  source_domain : Option String := none
  scraped_at : Option Nat := none
  company_location : Option String := none
  search_position : Option String := none
deriving Repr, DecidableEq

/-- Modelled from the spec: §4.1 — a single field-level validation error:
which field, and whether it was missing or malformed. -/
structure FieldError where
  field : String
  reason : String
deriving Repr, DecidableEq

/-- Whether `needle` occurs at the head of `haystack`. -/
def matchHere : List Char → List Char → Bool
  | [], _ => true
  | _ :: _, [] => false
  | a :: as, b :: bs => a == b && matchHere as bs

/-- Whether `needle` occurs anywhere in `haystack`. -/
def hasSub (needle : List Char) : List Char → Bool
  | [] => needle.isEmpty
  | b :: bs => matchHere needle (b :: bs) || hasSub needle bs

/-- Modelled from the spec: §3 — `job_url` must be an absolute URL. -/
def isAbsoluteUrl (s : String) : Bool :=
  matchHere "http://".data s.data || matchHere "https://".data s.data

/-- Field check for a required non-empty string field. -/
def requireNonEmpty (name : String) (v : Option String) : List FieldError :=
  match v with
  | none => [⟨name, "missing"⟩]
  | some s => if s = "" then [⟨name, "malformed"⟩] else []

/-- Field check for the required absolute-URL field. -/
def requireUrl (name : String) (v : Option String) : List FieldError :=
  match v with
  | none => [⟨name, "missing"⟩]
  | some s => if isAbsoluteUrl s then [] else [⟨name, "malformed"⟩]

/-- Field check for the required timestamp field. -/
def requireStamp (name : String) (v : Option Nat) : List FieldError :=
  match v with
  | none => [⟨name, "missing"⟩]
  | some _ => []

/-- Modelled from the spec: §4.1 — the full field-level error list for a
candidate, one entry per individually missing or malformed field. -/
def fieldErrors (c : Candidate) : List FieldError :=
  requireNonEmpty "job_title" c.job_title ++
  requireNonEmpty "company_name" c.company_name ++
  requireUrl "job_url" c.job_url ++
  requireNonEmpty "source_domain" c.source_domain ++
  requireStamp "scraped_at" c.scraped_at

/-- Modelled from the spec: §4.1 `validate(candidate) -> CanonicalJobRecord |
ValidationFailure`.  Pure and total: every candidate maps to a typed
outcome, and a failure carries the per-field error list.  (The defining
module `src/schema.py` is not in the repository snapshot.) -/
def validate (c : Candidate) : Except (List FieldError) CanonicalJobRecord :=
  match c.job_title, c.company_name, c.job_url, c.source_domain, c.scraped_at with
  | some t, some n, some u, some d, some ts =>
      if fieldErrors c = [] then
        .ok { job_title := t, company_name := n, job_url := u, source_domain := d,
              scraped_at := ts, company_location := c.company_location,
              search_position := c.search_position }
      else .error (fieldErrors c)
  | _, _, _, _, _ => .error (fieldErrors c)

/-- Modelled from the spec: §3 RawItemPayload — an opaque source-specific
mapping of field name → value as extracted, plus extraction metadata.
(The defining module `src/ingestion/indeed_scraper.py` is not in the
repository snapshot.) -/
structure RawItemPayload where
  fields : List (String × String)
  source_id : String
  query_context : String
  page_number : Nat
  position_on_page : Nat
  extracted_at : Nat
deriving Repr, DecidableEq

/-- Look a named field up in a raw payload's mapping. -/
def lookupField (raw : RawItemPayload) (k : String) : Option String :=
  (raw.fields.find? (fun p => decide (p.1 = k))).map (·.2)

/-- Modelled from the spec: §4.4 step (1) — the source-specific field mapping
from a raw payload into the canonical shape; the record's `source_domain`
tag comes from the payload's source id and `scraped_at` from its
extraction timestamp. -/
def mapToCandidate (raw : RawItemPayload) : Candidate :=
  { job_title := lookupField raw "job_title",
    company_name := lookupField raw "company_name",
    job_url := lookupField raw "job_url",
    source_domain := some raw.source_id,
    scraped_at := some raw.extracted_at,
    company_location := lookupField raw "company_location",
    search_position := lookupField raw "search_position" }

/-- Modelled from the spec: §4.4 steps (1)–(2) — normalize one raw payload:
map into the canonical shape, then validate. -/
def normalizeRaw (raw : RawItemPayload) : Except (List FieldError) CanonicalJobRecord :=
  validate (mapToCandidate raw)

/-- Modelled from the spec: §4.4 step (4) — merge one validated record into
the running deduplicated list.  If a record with the same fingerprint is
already present it is replaced in place only when the new record's
`scraped_at` is strictly later (so ties keep the first-seen record and the
first-seen order of fingerprints is stable); otherwise the record is
appended. -/
def insertRecord (acc : List CanonicalJobRecord) (r : CanonicalJobRecord) :
    List CanonicalJobRecord :=
  if acc.any (fun x => decide (fingerprint x = fingerprint r)) then
    acc.map (fun x =>
      if fingerprint x = fingerprint r ∧ x.scraped_at < r.scraped_at then r else x)
  else
    acc ++ [r]

/-- Modelled from the spec: §4.4 step (4) — collapse records sharing a
fingerprint, keeping the latest `scraped_at` (ties: first-seen). -/
def dedupe (rs : List CanonicalJobRecord) : List CanonicalJobRecord :=
  rs.foldl insertRecord []

/-- Modelled from the spec: §4.4 DedupReport — counts produced by Silver. -/
structure DedupReport where
  attempted : Nat
  validated : Nat
  validation_failures : Nat
  intra_batch_duplicates : Nat
deriving Repr, DecidableEq

/-- Modelled from the spec: §3 ExtractionManifest — extraction outcome
counts and per-item failure reasons. -/
structure ExtractionManifest where
  total_attempted : Nat
  successfully_parsed : Nat
  item_failures : List (Nat × Nat × String)
  pages_attempted : Nat
  page_stops : List (Nat × String)
deriving Repr, DecidableEq

/-- Modelled from the spec: §3 ExtractionBatch — ordered raw payloads plus
the manifest; the unit handed to Bronze. -/
structure ExtractionBatch where
  payloads : List RawItemPayload
  manifest : ExtractionManifest
deriving Repr, DecidableEq

/-- The validated records of a batch, in order. -/
def validatedRecords (batch : ExtractionBatch) : List CanonicalJobRecord :=
  batch.payloads.filterMap (fun raw => (normalizeRaw raw).toOption)

/-- Modelled from the spec: §4.4 `normalize_and_dedupe(batch) -> (ordered
sequence of CanonicalJobRecord, DedupReport)`.  A pure function of the one
Bronze capture: map, validate, fingerprint, collapse intra-batch
duplicates.  (The defining module `src/transformation/normalize.py` is not
in the repository snapshot.) -/
def normalize_and_dedupe (batch : ExtractionBatch) :
    List CanonicalJobRecord × DedupReport :=
  let validated := validatedRecords batch
  let out := dedupe validated
  (out,
   { attempted := batch.payloads.length,
     validated := validated.length,
     validation_failures := batch.payloads.length - validated.length,
     intra_batch_duplicates := validated.length - out.length })

/-- Modelled from the spec: §4.5 — the Gold persistent store's job table,
rows keyed by the natural key (fingerprint). -/
abbrev GoldStore := List CanonicalJobRecord

/-- Modelled from the spec: §4.5 — look an existing stored row up by
fingerprint (natural key). -/
def findByFingerprint (s : GoldStore) (f : JobFingerprint) :
    Option CanonicalJobRecord :=
  s.find? (fun r => decide (fingerprint r = f))

/-- Modelled from the spec: §4.5 — the comparison set for "unchanged"
explicitly excludes the volatile `scraped_at` extraction timestamp. -/
def comparableEq (a b : CanonicalJobRecord) : Bool :=
  decide (a.job_title = b.job_title ∧ a.company_name = b.company_name ∧
    a.job_url = b.job_url ∧ a.source_domain = b.source_domain ∧
    a.company_location = b.company_location ∧
    a.search_position = b.search_position)

/-- Replace the stored row sharing `r`'s fingerprint by `r` (in place). -/
def replaceByFingerprint (s : GoldStore) (r : CanonicalJobRecord) : GoldStore :=
  s.map (fun x => if fingerprint x = fingerprint r then r else x)

/-- Modelled from the spec: §4.5 LoadReport — counts of load outcomes. -/
structure LoadReport where
  inserted : Nat
  updated : Nat
  skipped_unchanged : Nat
deriving Repr, DecidableEq

/-- Modelled from the spec: §4.5 — load one record: absent fingerprint →
insert; present and comparable fields identical → skip; present and some
comparable field differs → update in place. -/
def upsertOne (s : GoldStore) (rep : LoadReport) (r : CanonicalJobRecord) :
    GoldStore × LoadReport :=
  match findByFingerprint s (fingerprint r) with
  | none => (s ++ [r], { rep with inserted := rep.inserted + 1 })
  | some existing =>
    if comparableEq existing r then
      (s, { rep with skipped_unchanged := rep.skipped_unchanged + 1 })
    else
      (replaceByFingerprint s r, { rep with updated := rep.updated + 1 })

/-- Sequentially upsert each record, threading store and report. -/
def loadAux : List CanonicalJobRecord → GoldStore → LoadReport →
    GoldStore × LoadReport
  | [], s, rep => (s, rep)
  | r :: rs, s, rep =>
    let p := upsertOne s rep r
    loadAux rs p.1 p.2

/-- Modelled from the spec: §4.5 `load(records) -> LoadReport` — the
incremental loader over the persistent store.  (The defining module
`src/loader/database.py` is not in the repository snapshot.) -/
def load (rs : List CanonicalJobRecord) (s : GoldStore) :
    GoldStore × LoadReport :=
  loadAux rs s ⟨0, 0, 0⟩

/-- Modelled from the spec: §4.4 — the Silver stage as invoked by the
orchestrator: the run context exposes the persistent store, but the stage
computes only from the Bronze capture and never consults the store. -/
def silverStage (store : GoldStore) (batch : ExtractionBatch) :
    List CanonicalJobRecord × DedupReport :=
  normalize_and_dedupe batch

/-- Modelled from the spec: §3 BronzeCapture key — derivable from run id,
source id, query context, plus a fresh timestamp component. -/
structure BronzeKey where
  descriptor : String
  stamp : Nat
deriving Repr, DecidableEq

namespace Bronze

/-- Modelled from the spec: §4.3 — the raw capture store: the captures
written so far (append-only) and a strictly increasing clock supplying the
fresh timestamp component of each key.  (The defining module
`src/storage/bronze.py` is not in the repository snapshot.) -/
structure Store where
  captures : List (BronzeKey × ExtractionBatch)
  clock : Nat
deriving Repr, DecidableEq

/-- The empty Bronze store. -/
def Store.empty : Store := ⟨[], 0⟩

/-- Modelled from the spec: §4.3 `put(batch, run_id) -> handle` — serialize
the batch in full and append it under a key derived from the run id,
source id, query context and a fresh timestamp component; nothing already
stored is touched. -/
def put (s : Store) (run_id source_id query_context : String)
    (batch : ExtractionBatch) : Store × BronzeKey :=
  let key : BronzeKey :=
    ⟨run_id ++ "/" ++ source_id ++ "/" ++ query_context, s.clock⟩
  (⟨s.captures ++ [(key, batch)], s.clock + 1⟩, key)

/-- Modelled from the spec: §4.3 `get(handle) -> batch`. -/
def get (s : Store) (k : BronzeKey) : Option ExtractionBatch :=
  (s.captures.find? (fun p => decide (p.1 = k))).map (·.2)

/-- One queued write: the identifying triple and the batch to capture. -/
structure PutOp where
  run_id : String
  source_id : String
  query_context : String
  batch : ExtractionBatch

/-- Apply a sequence of writes to the store, discarding the handles. -/
def applyPuts (s : Store) : List PutOp → Store
  | [] => s
  | op :: ops => applyPuts (put s op.run_id op.source_id op.query_context op.batch).1 ops

end Bronze

/-- Modelled from the spec: §6 raw fetch collaborator — per page request,
either a list of raw item fragments (field mappings) or an explicit
failure signal. -/
inductive PageFetch where
  | failure (reason : String)
  | items (items : List (List (String × String)))
deriving Repr, DecidableEq

/-- Modelled from the spec: §4.2 — parse one raw item fragment
independently; a fragment missing the `job_title` or `job_url` field is a
per-item structural failure recorded with a reason. -/
def parseItem (source_id query_context : String) (page pos extracted_at : Nat)
    (item : List (String × String)) : Except String RawItemPayload :=
  match item.find? (fun p => decide (p.1 = "job_title")),
        item.find? (fun p => decide (p.1 = "job_url")) with
  | none, _ => .error "missing field job_title"
  | _, none => .error "missing field job_url"
  | some _, some _ =>
    .ok { fields := item, source_id := source_id, query_context := query_context,
          page_number := page, position_on_page := pos, extracted_at := extracted_at }

/-- Whether a raw item fragment parses (independent of its position). -/
def itemOk (item : List (String × String)) : Bool :=
  (item.find? (fun p => decide (p.1 = "job_title"))).isSome &&
  (item.find? (fun p => decide (p.1 = "job_url"))).isSome

/-- Parse each item of one page independently from a starting position,
collecting the payloads and the recorded item failures. -/
def parsePageFrom (source_id query_context : String) (page extracted_at : Nat) :
    Nat → List (List (String × String)) →
    List RawItemPayload × List (Nat × Nat × String)
  | _, [] => ([], [])
  | pos, item :: rest =>
    let next := parsePageFrom source_id query_context page extracted_at (pos + 1) rest
    match parseItem source_id query_context page pos extracted_at item with
    | .ok payload => (payload :: next.1, next.2)
    | .error reason => (next.1, (page, pos, reason) :: next.2)

/-- Modelled from the spec: §4.2 — parse the items of one page, attempting
each independently so one malformed item never discards the others. -/
def parsePage (source_id query_context : String) (page extracted_at : Nat)
    (items : List (List (String × String))) :
    List RawItemPayload × List (Nat × Nat × String) :=
  parsePageFrom source_id query_context page extracted_at 0 items

/-- Modelled from the spec: §4.2 — the page loop: up to the remaining page
budget, fetch a page; a fetch failure or an empty page records a hard stop
and ends pagination; otherwise parse the items independently and continue
with the next page. -/
def extractGo (fetch : Nat → PageFetch) (source_id query_context : String)
    (extracted_at : Nat) : Nat → Nat → ExtractionBatch → ExtractionBatch
  | 0, _, acc => acc
  | budget + 1, page, acc =>
    match fetch page with
    | .failure reason =>
      { acc with manifest :=
          { acc.manifest with
              pages_attempted := acc.manifest.pages_attempted + 1,
              page_stops := acc.manifest.page_stops ++ [(page, reason)] } }
    | .items items =>
      if items.isEmpty then
        { acc with manifest :=
            { acc.manifest with
                pages_attempted := acc.manifest.pages_attempted + 1,
                page_stops := acc.manifest.page_stops ++ [(page, "end-of-results")] } }
      else
        let parsed := parsePage source_id query_context page extracted_at items
        extractGo fetch source_id query_context extracted_at budget (page + 1)
          { payloads := acc.payloads ++ parsed.1,
            manifest :=
              { acc.manifest with
                  total_attempted := acc.manifest.total_attempted + items.length,
                  successfully_parsed := acc.manifest.successfully_parsed + parsed.1.length,
                  item_failures := acc.manifest.item_failures ++ parsed.2,
                  pages_attempted := acc.manifest.pages_attempted + 1 } }

/-- The empty extraction batch every extraction starts from. -/
def emptyBatch : ExtractionBatch :=
  { payloads := [], manifest := ⟨0, 0, [], 0, []⟩ }

/-- Modelled from the spec: §4.2 `extract(query_context, max_pages) ->
ExtractionBatch` — drive pagination from page 1 up to the `max_pages`
safety bound against the fetch collaborator.  (The defining module
`src/ingestion/indeed_scraper.py` is not in the repository snapshot.) -/
def extract (fetch : Nat → PageFetch) (source_id query_context : String)
    (extracted_at : Nat) (max_pages : Nat) : ExtractionBatch :=
  extractGo fetch source_id query_context extracted_at max_pages 1 emptyBatch

/-- A row of the `indeed_jobs` table as selected by the web layer
(`route.ts` lines 49–58). -/
structure Job where
  id : Nat
  job_title : String
  company_name : String
  company_location : String
  job_url : String
  search_position : String
  domain : String
  scraped_at : Nat
deriving Repr, DecidableEq

/-- Case-insensitive substring test, embedding Prisma's
`contains / mode: 'insensitive'` filter used by the web queries. -/
def containsCI (haystack needle : String) : Bool :=
  hasSub needle.toLower.data haystack.toLower.data

/-- The `where` clause built by `GET` (`route.ts` lines 21–36) and
`JobsPage` (`page.tsx` lines 34–49): a search term matches title or
company case-insensitively, a location filters `company_location`, and a
domain filters by equality; an empty parameter imposes no condition. -/
def matchesWhere (search location domain : String) (j : Job) : Bool :=
  (search == "" || (containsCI j.job_title search || containsCI j.company_name search)) &&
  (location == "" || containsCI j.company_location location) &&
  (domain == "" || j.domain == domain)

/-- The sortable columns offered by the web layer (`sortBy` parameter). -/
inductive SortField where
  | scraped_at
  | company_name
  | job_title
deriving Repr, DecidableEq

/-- Sort direction (`sortOrder` parameter). -/
inductive SortOrder where
  | asc
  | desc
deriving Repr, DecidableEq

/-- Comparator for the `orderBy` clause of the web queries. -/
def jobLe (field : SortField) (ord : SortOrder) (a b : Job) : Bool :=
  let cmp :=
    match field with
    | .scraped_at => compare a.scraped_at b.scraped_at
    | .company_name => compare a.company_name b.company_name
    | .job_title => compare a.job_title b.job_title
  match ord with
  | .asc => cmp ≠ Ordering.gt
  | .desc => cmp ≠ Ordering.lt

/-- Insertion step of the stable sort modelling Prisma's `orderBy`. -/
def insertJobSorted (le : Job → Job → Bool) (j : Job) :
    List Job → List Job
  | [] => [j]
  | x :: xs => if le j x then j :: x :: xs else x :: insertJobSorted le j xs

/-- Stable sort modelling Prisma's `orderBy`. -/
def sortJobs (le : Job → Job → Bool) : List Job → List Job
  | [] => []
  | x :: xs => insertJobSorted le x (sortJobs le xs)

/-- `prisma.indeedJob.findMany({where, orderBy, skip, take})` over the
stored table: filter, order, then paginate.  A pure read. -/
def findManyJobs (db : List Job) (search location domain : String)
    (field : SortField) (ord : SortOrder) (skip take_ : Nat) : List Job :=
  (((sortJobs (jobLe field ord) (db.filter (matchesWhere search location domain)))).drop
    skip).take take_

/-- `prisma.indeedJob.count({where})` over the stored table.  A pure read. -/
def countJobs (db : List Job) (search location domain : String) : Nat :=
  (db.filter (matchesWhere search location domain)).length

/-- The query parameters of one request to the jobs API, after the
defaulting on `route.ts` lines 9–18. -/
structure JobsQuery where
  page : Int
  limit : Int
  search : String
  location : String
  domain : String
  sortField : SortField
  sortOrder : SortOrder
deriving Repr, DecidableEq

/-- The pagination metadata of a successful response
(`route.ts` lines 69–75). -/
structure PaginationMeta where
  page : Int
  limit : Int
  totalCount : Int
  totalPages : Int
  hasMore : Bool
deriving Repr, DecidableEq

/-- The JSON body and status produced by the jobs API route. -/
structure JobsResponse where
  status : Nat
  jobs : List Job
  pagination : Option PaginationMeta
  error : Option String
deriving Repr, DecidableEq

/-- `GET` of `web/app/api/jobs/route.ts`.  The relational store is threaded
as explicit state (`Except` models an unreachable store / a rejected
Prisma promise, which the route's `catch` turns into a 500 JSON error);
the route performs only `findMany` and `count` reads and returns the store
as it found it. -/
def jobsGET (q : JobsQuery) (db : Except String (List Job)) :
    JobsResponse × Except String (List Job) :=
  match db with
  | .error _ =>
    ({ status := 500, jobs := [], pagination := none,
       error := some "Failed to fetch jobs" }, db)
  | .ok rows =>
    let skip : Int := (q.page - 1) * q.limit
    let jobs := findManyJobs rows q.search q.location q.domain q.sortField
      q.sortOrder skip.toNat q.limit.toNat
    let totalCount : Int := (countJobs rows q.search q.location q.domain : Int)
    let totalPages : Int := ⌈(totalCount : ℚ) / (q.limit : ℚ)⌉
    let hasMore : Bool := decide (q.page < totalPages)
    ({ status := 200, jobs := jobs,
       pagination := some ⟨q.page, q.limit, totalCount, totalPages, hasMore⟩,
       error := none }, db)

/-- The parameters of one `JobsPage` server render
(`page.tsx` lines 23–31); the page size is fixed at 20. -/
structure PageParams where
  page : Int
  search : String
  location : String
  domain : String
  sortField : SortField
  sortOrder : SortOrder
deriving Repr, DecidableEq

/-- The data `JobsPage` (`web/app/jobs/page.tsx`) derives from the store:
the filtered, ordered, paginated rows plus the total count and page count.
It performs only `findMany` and `count` reads and returns the store as it
found it. -/
def jobsPage (p : PageParams) (db : List Job) :
    (List Job × Int × Int) × List Job :=
  let limit : Int := 20
  let skip : Int := (p.page - 1) * limit
  let jobs := findManyJobs db p.search p.location p.domain p.sortField
    p.sortOrder skip.toNat limit.toNat
  let totalCount : Int := (countJobs db p.search p.location p.domain : Int)
  let totalPages : Int := ⌈(totalCount : ℚ) / (limit : ℚ)⌉
  ((jobs, totalCount, totalPages), db)

/-- An entry of the pagination control: a numbered page button or an
ellipsis separator. -/
inductive PageEntry where
  | num (n : Int)
  | dots
deriving Repr, DecidableEq

/-- The integers from `lo` of the given count, in increasing order. -/
def intRangeAux (lo : Int) : Nat → List Int
  | 0 => []
  | n + 1 => lo :: intRangeAux (lo + 1) n

/-- The integers from `lo` to `hi` inclusive, in increasing order
(the `for (let i = lo; i <= hi; i++)` loops of `getPageNumbers`). -/
def intRange (lo hi : Int) : List Int :=
  intRangeAux lo (hi + 1 - lo).toNat

/-- `getPageNumbers` of `web/components/Pagination.tsx` (lines 26–60):
with at most `showPages = 5` total pages, all pages; otherwise page 1, an
ellipsis when the current page is past 3, the pages around the current
one clamped to `[2, totalPages - 1]`, an ellipsis when the current page is
before `totalPages - 2`, and the last page. -/
def getPageNumbers (currentPage totalPages : Int) : List PageEntry :=
  let showPages : Int := 5
  if totalPages ≤ showPages then
    (intRange 1 totalPages).map PageEntry.num
  else
    [PageEntry.num 1] ++
    (if currentPage > 3 then [PageEntry.dots] else []) ++
    ((intRange (max 2 (currentPage - 1))
        (min (totalPages - 1) (currentPage + 1))).map PageEntry.num) ++
    (if currentPage < totalPages - 2 then [PageEntry.dots] else []) ++
    [PageEntry.num totalPages]

/-- The `Pagination` component's render (`Pagination.tsx` line 62 returns
`null` when `totalPages <= 1`, otherwise the page-number strip). -/
def paginationRender (currentPage totalPages totalCount : Int) :
    Option (List PageEntry) :=
  if totalPages ≤ 1 then none
  else some (getPageNumbers currentPage totalPages)

/-! ## Helper lemmas about validation -/

lemma validate_eq_error (c : Candidate) (h : fieldErrors c ≠ []) :
    validate c = .error (fieldErrors c) := by
  unfold validate
  split
  · rw [if_neg h]
  · rfl

lemma validate_eq_ok (c : Candidate) (t n u d : String) (ts : Nat)
    (h1 : c.job_title = some t) (h2 : c.company_name = some n)
    (h3 : c.job_url = some u) (h4 : c.source_domain = some d)
    (h5 : c.scraped_at = some ts) (h : fieldErrors c = []) :
    validate c =
      .ok { job_title := t, company_name := n, job_url := u,
            source_domain := d, scraped_at := ts,
            company_location := c.company_location,
            search_position := c.search_position } := by
  simp only [validate, h1, h2, h3, h4, h5]
  rw [if_pos h]

lemma title_missing_mem (c : Candidate) (h : c.job_title = none) :
    (⟨"job_title", "missing"⟩ : FieldError) ∈ fieldErrors c := by
  simp [fieldErrors, requireNonEmpty, h]

lemma company_missing_mem (c : Candidate) (h : c.company_name = none) :
    (⟨"company_name", "missing"⟩ : FieldError) ∈ fieldErrors c := by
  simp [fieldErrors, requireNonEmpty, h]

lemma url_missing_mem (c : Candidate) (h : c.job_url = none) :
    (⟨"job_url", "missing"⟩ : FieldError) ∈ fieldErrors c := by
  simp [fieldErrors, requireUrl, h]

lemma domain_missing_mem (c : Candidate) (h : c.source_domain = none) :
    (⟨"source_domain", "missing"⟩ : FieldError) ∈ fieldErrors c := by
  simp [fieldErrors, requireNonEmpty, h]

lemma stamp_missing_mem (c : Candidate) (h : c.scraped_at = none) :
    (⟨"scraped_at", "missing"⟩ : FieldError) ∈ fieldErrors c := by
  simp [fieldErrors, requireStamp, h]

lemma title_malformed_mem (c : Candidate) (h : c.job_title = some "") :
    (⟨"job_title", "malformed"⟩ : FieldError) ∈ fieldErrors c := by
  simp [fieldErrors, requireNonEmpty, h]

lemma url_malformed_mem (c : Candidate) (u : String) (h : c.job_url = some u)
    (hu : isAbsoluteUrl u = false) :
    (⟨"job_url", "malformed"⟩ : FieldError) ∈ fieldErrors c := by
  simp [fieldErrors, requireUrl, h, hu]

lemma validate_error_of_mem (c : Candidate) (e : FieldError)
    (h : e ∈ fieldErrors c) :
    ∃ errs, validate c = .error errs ∧ e ∈ errs :=
  ⟨fieldErrors c, validate_eq_error c (List.ne_nil_of_mem h), h⟩

/-! ## C2 — fingerprint stability and injectivity on the natural key -/

/-- C2: any two raw payloads normalizing to records with the same
`(job_url, source_domain)` get equal fingerprints, and records with
different `job_url` get different fingerprints. -/
theorem claim_c2_fingerprint_stability :
    (∀ (p q : RawItemPayload) (r s : CanonicalJobRecord),
      normalizeRaw p = .ok r → normalizeRaw q = .ok s →
      r.job_url = s.job_url → r.source_domain = s.source_domain →
      fingerprint r = fingerprint s) ∧
    (∀ r s : CanonicalJobRecord, r.job_url ≠ s.job_url →
      fingerprint r ≠ fingerprint s) := by
  constructor
  · intro p q r s _ _ hurl hdom
    simp [fingerprint, hurl, hdom]
  · intro r s hne hf
    exact hne (congrArg JobFingerprint.url hf)

/-- Concrete raw item 1 of the spec's Silver scenario. -/
def raw1 : RawItemPayload :=
  { fields := [("job_title", "Engineer"), ("company_name", "Acme"),
               ("job_url", "https://x/1")],
    source_id := "uk", query_context := "q", page_number := 1,
    position_on_page := 0, extracted_at := 10 }

/-- Concrete raw item 2: same `job_url` as item 1, later `scraped_at`. -/
def raw2 : RawItemPayload :=
  { raw1 with
    fields := [("job_title", "Engineer v2"), ("company_name", "Acme"),
               ("job_url", "https://x/1")],
    position_on_page := 1, extracted_at := 20 }

/-- Concrete raw item 3: a different `job_url`. -/
def raw3 : RawItemPayload :=
  { raw1 with
    fields := [("job_title", "Analyst"), ("company_name", "Beta"),
               ("job_url", "https://x/2")],
    position_on_page := 2, extracted_at := 15 }

/-- The canonical record raw item 1 normalizes to. -/
def rec1 : CanonicalJobRecord :=
  { job_title := "Engineer", company_name := "Acme",
    job_url := "https://x/1", source_domain := "uk", scraped_at := 10 }

/-- The canonical record raw item 2 normalizes to. -/
def rec2 : CanonicalJobRecord :=
  { job_title := "Engineer v2", company_name := "Acme",
    job_url := "https://x/1", source_domain := "uk", scraped_at := 20 }

/-- The canonical record raw item 3 normalizes to. -/
def rec3 : CanonicalJobRecord :=
  { job_title := "Analyst", company_name := "Beta",
    job_url := "https://x/2", source_domain := "uk", scraped_at := 15 }

/-- Witness for C2 at concrete inputs: items 1 and 2 share a fingerprint,
items 1 and 3 do not. -/
theorem claim_c2_witness :
    fingerprint rec1 = fingerprint rec2 ∧ fingerprint rec1 ≠ fingerprint rec3 :=
  ⟨claim_c2_fingerprint_stability.1 raw1 raw2 rec1 rec2 rfl rfl rfl rfl,
   claim_c2_fingerprint_stability.2 rec1 rec3 (by decide)⟩

/-! ## C3 — validation is total and field-level -/

/-- C3: validation always yields a typed outcome, and every individually
missing or malformed required field is named in the failure. -/
theorem claim_c3_validation_total :
    ∀ c : Candidate,
      ((∃ r, validate c = .ok r) ∨
        (∃ errs, validate c = .error errs ∧ errs ≠ [])) ∧
      (c.job_title = none →
        ∃ errs, validate c = .error errs ∧ (⟨"job_title", "missing"⟩ : FieldError) ∈ errs) ∧
      (c.company_name = none →
        ∃ errs, validate c = .error errs ∧ (⟨"company_name", "missing"⟩ : FieldError) ∈ errs) ∧
      (c.job_url = none →
        ∃ errs, validate c = .error errs ∧ (⟨"job_url", "missing"⟩ : FieldError) ∈ errs) ∧
      (c.source_domain = none →
        ∃ errs, validate c = .error errs ∧ (⟨"source_domain", "missing"⟩ : FieldError) ∈ errs) ∧
      (c.scraped_at = none →
        ∃ errs, validate c = .error errs ∧ (⟨"scraped_at", "missing"⟩ : FieldError) ∈ errs) ∧
      (c.job_title = some "" →
        ∃ errs, validate c = .error errs ∧ (⟨"job_title", "malformed"⟩ : FieldError) ∈ errs) ∧
      (∀ u, c.job_url = some u → isAbsoluteUrl u = false →
        ∃ errs, validate c = .error errs ∧ (⟨"job_url", "malformed"⟩ : FieldError) ∈ errs) := by
  intro c
  refine ⟨?_, fun h => validate_error_of_mem c _ (title_missing_mem c h),
    fun h => validate_error_of_mem c _ (company_missing_mem c h),
    fun h => validate_error_of_mem c _ (url_missing_mem c h),
    fun h => validate_error_of_mem c _ (domain_missing_mem c h),
    fun h => validate_error_of_mem c _ (stamp_missing_mem c h),
    fun h => validate_error_of_mem c _ (title_malformed_mem c h),
    fun u h hu => validate_error_of_mem c _ (url_malformed_mem c u h hu)⟩
  match h1 : c.job_title, h2 : c.company_name, h3 : c.job_url,
        h4 : c.source_domain, h5 : c.scraped_at with
  | some t, some n, some u, some d, some ts =>
    by_cases h : fieldErrors c = []
    · exact Or.inl ⟨_, validate_eq_ok c t n u d ts h1 h2 h3 h4 h5 h⟩
    · exact Or.inr ⟨fieldErrors c, validate_eq_error c h, h⟩
  | none, _, _, _, _ =>
    exact Or.inr ⟨fieldErrors c,
      validate_eq_error c (List.ne_nil_of_mem (title_missing_mem c h1)),
      List.ne_nil_of_mem (title_missing_mem c h1)⟩
  | _, none, _, _, _ =>
    exact Or.inr ⟨fieldErrors c,
      validate_eq_error c (List.ne_nil_of_mem (company_missing_mem c h2)),
      List.ne_nil_of_mem (company_missing_mem c h2)⟩
  | _, _, none, _, _ =>
    exact Or.inr ⟨fieldErrors c,
      validate_eq_error c (List.ne_nil_of_mem (url_missing_mem c h3)),
      List.ne_nil_of_mem (url_missing_mem c h3)⟩
  | _, _, _, none, _ =>
    exact Or.inr ⟨fieldErrors c,
      validate_eq_error c (List.ne_nil_of_mem (domain_missing_mem c h4)),
      List.ne_nil_of_mem (domain_missing_mem c h4)⟩
  | _, _, _, _, none =>
    exact Or.inr ⟨fieldErrors c,
      validate_eq_error c (List.ne_nil_of_mem (stamp_missing_mem c h5)),
      List.ne_nil_of_mem (stamp_missing_mem c h5)⟩

/-- Witness for C3 at concrete inputs: the empty candidate fails naming
`job_title`, and a candidate with a relative URL fails naming `job_url`. -/
theorem claim_c3_witness :
    (∃ errs, validate {} = .error errs ∧
      (⟨"job_title", "missing"⟩ : FieldError) ∈ errs) ∧
    (∃ errs,
      validate { job_title := some "T", company_name := some "C",
                 job_url := some "x/1", source_domain := some "uk",
                 scraped_at := some 3 } = .error errs ∧
      (⟨"job_url", "malformed"⟩ : FieldError) ∈ errs) :=
  ⟨(claim_c3_validation_total {}).2.1 rfl,
   (claim_c3_validation_total _).2.2.2.2.2.2.2 "x/1" rfl (by decide)⟩

/-! ## C7 — Silver is a pure, store-independent function of one capture -/

/-- C7: the Silver stage's output does not depend on the persistent store,
and replaying the same capture always yields the same canonical set and
report. -/
theorem claim_c7_silver_pure :
    ∀ (batch : ExtractionBatch) (s₁ s₂ : GoldStore),
      silverStage s₁ batch = silverStage s₂ batch ∧
      silverStage s₁ batch = normalize_and_dedupe batch :=
  fun _ _ _ => ⟨rfl, rfl⟩

/-! ## C5 — Bronze is append-only and immutable -/

/-- Well-formedness of a Bronze store: every stored key's timestamp
component is older than the clock, so the next key is fresh. -/
def BronzeWF (s : Bronze.Store) : Prop :=
  ∀ e ∈ s.captures, e.1.stamp < s.clock

lemma bronzeWF_empty : BronzeWF Bronze.Store.empty := by
  intro e he
  simp [Bronze.Store.empty] at he

lemma bronzeWF_put (s : Bronze.Store) (hwf : BronzeWF s)
    (run_id source_id query_context : String) (b : ExtractionBatch) :
    BronzeWF (Bronze.put s run_id source_id query_context b).1 := by
  intro e he
  simp only [Bronze.put, List.mem_append, List.mem_singleton] at he
  rcases he with he | he
  · exact Nat.lt_succ_of_lt (hwf e he)
  · subst he
    exact Nat.lt_succ_self _

lemma bronze_get_some (s : Bronze.Store) (k : BronzeKey) (b : ExtractionBatch)
    (h : Bronze.get s k = some b) :
    ∃ e ∈ s.captures, s.captures.find? (fun p => decide (p.1 = k)) = some e ∧
      e.2 = b := by
  cases hfind : s.captures.find? (fun p => decide (p.1 = k)) with
  | none => simp [Bronze.get, hfind] at h
  | some e =>
    refine ⟨e, List.mem_of_find?_eq_some hfind, rfl, ?_⟩
    simpa [Bronze.get, hfind] using h

lemma bronze_get_put_old (s : Bronze.Store) (k : BronzeKey) (b : ExtractionBatch)
    (h : Bronze.get s k = some b)
    (run_id source_id query_context : String) (batch : ExtractionBatch) :
    Bronze.get (Bronze.put s run_id source_id query_context batch).1 k = some b := by
  obtain ⟨e, _, hfind, hb⟩ := bronze_get_some s k b h
  simp [Bronze.get, Bronze.put, List.find?_append, hfind, hb]

lemma bronze_get_applyPuts (s : Bronze.Store) (k : BronzeKey)
    (b : ExtractionBatch) (h : Bronze.get s k = some b) :
    ∀ ops : List Bronze.PutOp, Bronze.get (Bronze.applyPuts s ops) k = some b := by
  intro ops
  induction ops generalizing s with
  | nil => exact h
  | cons op ops ih =>
    exact ih _ (bronze_get_put_old s k b h op.run_id op.source_id
      op.query_context op.batch)

lemma bronze_get_put_self (s : Bronze.Store) (hwf : BronzeWF s)
    (run_id source_id query_context : String) (b : ExtractionBatch) :
    Bronze.get (Bronze.put s run_id source_id query_context b).1
      (Bronze.put s run_id source_id query_context b).2 = some b := by
  have hnone : s.captures.find?
      (fun p => decide (p.1 = (⟨run_id ++ "/" ++ source_id ++ "/" ++ query_context,
        s.clock⟩ : BronzeKey))) = none := by
    rw [List.find?_eq_none]
    intro e he
    simp only [decide_eq_true_eq]
    intro hk
    exact absurd (congrArg BronzeKey.stamp hk ▸ hwf e he) (Nat.lt_irrefl _)
  simp [Bronze.get, Bronze.put, List.find?_append, hnone]

/-- C5: Bronze writes are append-only — two writes for the same
query context in the same run produce distinct handles, both retrievable;
a put never overwrites or deletes a stored capture; and a get on an old
handle after any sequence of later writes returns the original bytes. -/
theorem claim_c5_bronze_append_only
    (s : Bronze.Store) (hwf : BronzeWF s)
    (run_id source_id query_context : String) (b1 b2 : ExtractionBatch) :
    (Bronze.put s run_id source_id query_context b1).2 ≠
      (Bronze.put (Bronze.put s run_id source_id query_context b1).1
        run_id source_id query_context b2).2 ∧
    Bronze.get (Bronze.put (Bronze.put s run_id source_id query_context b1).1
        run_id source_id query_context b2).1
      (Bronze.put s run_id source_id query_context b1).2 = some b1 ∧
    Bronze.get (Bronze.put (Bronze.put s run_id source_id query_context b1).1
        run_id source_id query_context b2).1
      (Bronze.put (Bronze.put s run_id source_id query_context b1).1
        run_id source_id query_context b2).2 = some b2 ∧
    (∃ t, (Bronze.put s run_id source_id query_context b1).1.captures =
      s.captures ++ t) ∧
    (∀ (k : BronzeKey) (bytes : ExtractionBatch),
      Bronze.get s k = some bytes →
      ∀ ops : List Bronze.PutOp,
        Bronze.get (Bronze.applyPuts s ops) k = some bytes) := by
  refine ⟨?_, ?_, ?_, ⟨_, rfl⟩, fun k bytes h ops => bronze_get_applyPuts s k bytes h ops⟩
  · intro hk
    have := congrArg BronzeKey.stamp hk
    simp [Bronze.put] at this
  · exact bronze_get_put_old _ _ _
      (bronze_get_put_self s hwf run_id source_id query_context b1) _ _ _ _
  · exact bronze_get_put_self _
      (bronzeWF_put s hwf run_id source_id query_context b1) _ _ _ _

/-- A concrete one-payload batch for the Bronze witness. -/
def batchA : ExtractionBatch :=
  { payloads := [raw1], manifest := ⟨1, 1, [], 1, []⟩ }

/-- A second concrete batch for the Bronze witness. -/
def batchB : ExtractionBatch :=
  { payloads := [raw3], manifest := ⟨1, 1, [], 1, []⟩ }

/-- Witness for C5 at a concrete store and batches. -/
theorem claim_c5_witness :
    (Bronze.put Bronze.Store.empty "run1" "indeed" "uk" batchA).2 ≠
      (Bronze.put (Bronze.put Bronze.Store.empty "run1" "indeed" "uk" batchA).1
        "run1" "indeed" "uk" batchB).2 ∧
    Bronze.get (Bronze.put (Bronze.put Bronze.Store.empty "run1" "indeed" "uk" batchA).1
        "run1" "indeed" "uk" batchB).1
      (Bronze.put Bronze.Store.empty "run1" "indeed" "uk" batchA).2 = some batchA :=
  ⟨(claim_c5_bronze_append_only Bronze.Store.empty bronzeWF_empty
      "run1" "indeed" "uk" batchA batchB).1,
   (claim_c5_bronze_append_only Bronze.Store.empty bronzeWF_empty
      "run1" "indeed" "uk" batchA batchB).2.1⟩

/-! ## C6 — per-item isolation in extraction -/

lemma parseItem_ok_or (sid qc : String) (pg pos ea : Nat)
    (it : List (String × String)) :
    (itemOk it = true ∧ ∃ pl, parseItem sid qc pg pos ea it = .ok pl) ∨
    (itemOk it = false ∧ ∃ rsn, parseItem sid qc pg pos ea it = .error rsn) := by
  cases h1 : it.find? (fun p => decide (p.1 = "job_title")) with
  | none =>
    exact Or.inr ⟨by simp [itemOk, h1], "missing field job_title",
      by simp [parseItem, h1]⟩
  | some e1 =>
    cases h2 : it.find? (fun p => decide (p.1 = "job_url")) with
    | none =>
      exact Or.inr ⟨by simp [itemOk, h1, h2], "missing field job_url",
        by simp [parseItem, h1, h2]⟩
    | some e2 =>
      exact Or.inl ⟨by simp [itemOk, h1, h2],
        ⟨{ fields := it, source_id := sid, query_context := qc,
           page_number := pg, position_on_page := pos, extracted_at := ea },
         by simp [parseItem, h1, h2]⟩⟩

lemma parsePageFrom_lengths (sid qc : String) (pg ea : Nat) :
    ∀ (items : List (List (String × String))) (pos : Nat),
      (parsePageFrom sid qc pg ea pos items).1.length = items.countP itemOk ∧
      (parsePageFrom sid qc pg ea pos items).2.length =
        items.countP (fun it => !itemOk it) ∧
      items.countP itemOk + items.countP (fun it => !itemOk it) =
        items.length := by
  intro items
  induction items with
  | nil => intro pos; simp [parsePageFrom]
  | cons it rest ih =>
    intro pos
    obtain ⟨h1, h2, h3⟩ := ih (pos + 1)
    rcases parseItem_ok_or sid qc pg pos ea it with ⟨hok, pl, heq⟩ | ⟨hbad, rsn, heq⟩
    · simp [parsePageFrom, heq, List.countP_cons, hok, h1, h2]
      omega
    · simp [parsePageFrom, heq, List.countP_cons, hbad, h1, h2]
      omega

lemma extractGo_parsed_eq_payloads (fetch : Nat → PageFetch)
    (sid qc : String) (ea : Nat) :
    ∀ (budget page : Nat) (acc : ExtractionBatch),
      acc.manifest.successfully_parsed = acc.payloads.length →
      (extractGo fetch sid qc ea budget page acc).manifest.successfully_parsed =
        (extractGo fetch sid qc ea budget page acc).payloads.length := by
  intro budget
  induction budget with
  | zero => intro page acc h; simpa [extractGo] using h
  | succ n ih =>
    intro page acc h
    unfold extractGo
    cases hf : fetch page with
    | failure reason => simpa using h
    | items items =>
      by_cases he : items.isEmpty
      · simp only [he, if_true]
        simpa using h
      · simp only [he, if_false]
        apply ih
        simp [h]

/-- The payloads that a full pagination pass yields from the given page for
the given number of pages, each page's items parsed independently. -/
def pagesConcat (fetch : Nat → PageFetch) (sid qc : String) (ea : Nat) :
    Nat → Nat → List RawItemPayload
  | _, 0 => []
  | page, budget + 1 =>
    (match fetch page with
      | .items items => (parsePage sid qc page ea items).1
      | .failure _ => []) ++
    pagesConcat fetch sid qc ea (page + 1) budget

lemma extractGo_payloads_concat (fetch : Nat → PageFetch)
    (sid qc : String) (ea : Nat) :
    ∀ (budget page : Nat) (acc : ExtractionBatch),
      (∀ i, page ≤ i → i < page + budget →
        ∃ items, fetch i = .items items ∧ items ≠ []) →
      (extractGo fetch sid qc ea budget page acc).payloads =
        acc.payloads ++ pagesConcat fetch sid qc ea page budget := by
  intro budget
  induction budget with
  | zero => intro page acc h; simp [extractGo, pagesConcat]
  | succ n ih =>
    intro page acc h
    obtain ⟨items, hf, hne⟩ := h page (Nat.le_refl _) (by omega)
    have he : items.isEmpty = false := by
      cases items with
      | nil => exact absurd rfl hne
      | cons _ _ => rfl
    simp only [extractGo, hf, he, Bool.false_eq_true, if_false]
    rw [ih (page + 1) _ (fun i hi1 hi2 => h i (by omega) (by omega))]
    simp [pagesConcat, hf, List.append_assoc]

/-- C6: extraction parses each item of a page independently: the manifest's
`successfully_parsed` always equals the number of payloads; a page with
exactly one malformed item among N yields N−1 payloads and one recorded
item failure; and when every fetched page has items, pagination visits
every page regardless of item-level failures. -/
theorem claim_c6_per_item_isolation :
    (∀ (fetch : Nat → PageFetch) (sid qc : String) (ea max_pages : Nat),
      (extract fetch sid qc ea max_pages).manifest.successfully_parsed =
        (extract fetch sid qc ea max_pages).payloads.length) ∧
    (∀ (sid qc : String) (pg ea : Nat) (items : List (List (String × String))),
      items.countP (fun it => !itemOk it) = 1 →
      (parsePage sid qc pg ea items).1.length = items.length - 1 ∧
      (parsePage sid qc pg ea items).2.length = 1) ∧
    (∀ (fetch : Nat → PageFetch) (sid qc : String) (ea max_pages : Nat),
      (∀ i, 1 ≤ i → i < 1 + max_pages →
        ∃ items, fetch i = .items items ∧ items ≠ []) →
      (extract fetch sid qc ea max_pages).payloads =
        pagesConcat fetch sid qc ea 1 max_pages) := by
  refine ⟨?_, ?_, ?_⟩
  · intro fetch sid qc ea max_pages
    exact extractGo_parsed_eq_payloads fetch sid qc ea max_pages 1 emptyBatch rfl
  · intro sid qc pg ea items hone
    obtain ⟨h1, h2, h3⟩ := parsePageFrom_lengths sid qc pg ea items 0
    unfold parsePage
    refine ⟨?_, by rw [h2, hone]⟩
    rw [h1]
    omega
  · intro fetch sid qc ea max_pages h
    have := extractGo_payloads_concat fetch sid qc ea max_pages 1 emptyBatch h
    simpa [emptyBatch] using this

/-- A fetch collaborator serving one well-formed item on every page. -/
def constFetch : Nat → PageFetch :=
  fun _ => .items [[("job_title", "T"), ("job_url", "https://x/9")]]

/-- A concrete page of three items whose second is malformed. -/
def mixedPage : List (List (String × String)) :=
  [[("job_title", "A"), ("job_url", "https://x/a")],
   [("company_name", "only")],
   [("job_title", "B"), ("job_url", "https://x/b")]]

/-- Witness for C6 at concrete inputs: the three-item page with one
malformed item yields two payloads and one failure, and a two-page
extraction concatenates both pages' payloads. -/
theorem claim_c6_witness :
    ((parsePage "indeed" "q" 1 5 mixedPage).1.length = 2 ∧
      (parsePage "indeed" "q" 1 5 mixedPage).2.length = 1) ∧
    (extract constFetch "indeed" "q" 5 2).payloads =
      pagesConcat constFetch "indeed" "q" 5 1 2 :=
  ⟨claim_c6_per_item_isolation.2.1 "indeed" "q" 1 5 mixedPage (by decide),
   claim_c6_per_item_isolation.2.2 constFetch "indeed" "q" 5 2
     (fun i _ _ => ⟨_, rfl, by decide⟩)⟩

/-! ## C4 — intra-batch deduplication keeps the latest record -/

/-- The invariant maintained while folding validated records into the
deduplicated list: every processed fingerprint is represented exactly once,
the representative dominates every processed record sharing its
fingerprint, and it is the first occurrence attaining that maximum. -/
structure DedupInv (processed acc : List CanonicalJobRecord) : Prop where
  cover : ∀ r ∈ processed, ∃ y ∈ acc, fingerprint y = fingerprint r
  maxAt : ∀ y ∈ acc, ∀ r ∈ processed, fingerprint r = fingerprint y →
    r.scraped_at ≤ y.scraped_at
  nodupFp : (acc.map fingerprint).Nodup
  firstMax : ∀ y ∈ acc, ∃ l₁ l₂, processed = l₁ ++ y :: l₂ ∧
    ∀ r ∈ l₁, fingerprint r = fingerprint y → r.scraped_at < y.scraped_at
  lenLe : acc.length ≤ processed.length

lemma dedupInv_nil : DedupInv [] [] := by
  constructor <;> simp

lemma dedupInv_step (processed acc : List CanonicalJobRecord)
    (inv : DedupInv processed acc) (r : CanonicalJobRecord) :
    DedupInv (processed ++ [r]) (insertRecord acc r) := by
  cases hany : acc.any (fun x => decide (fingerprint x = fingerprint r)) with
  | false =>
    have hins : insertRecord acc r = acc ++ [r] := by
      simp [insertRecord, hany]
    have hfresh : ∀ x ∈ acc, fingerprint x ≠ fingerprint r := by
      have h := List.any_eq_false.mp hany
      intro x hx
      simpa using h x hx
    rw [hins]
    constructor
    · intro r' hr'
      rcases List.mem_append.mp hr' with h | h
      · obtain ⟨y, hy, hfp⟩ := inv.cover r' h
        exact ⟨y, List.mem_append_left _ hy, hfp⟩
      · exact ⟨r, List.mem_append_right _ (List.mem_singleton_self r),
          by rw [List.mem_singleton.mp h]⟩
    · intro y hy r' hr' hfp
      rcases List.mem_append.mp hy with hy | hy
      · rcases List.mem_append.mp hr' with hr' | hr'
        · exact inv.maxAt y hy r' hr' hfp
        · rw [List.mem_singleton.mp hr'] at hfp
          exact absurd hfp.symm (hfresh y hy)
      · have hey : y = r := List.mem_singleton.mp hy
        rw [hey] at hfp ⊢
        rcases List.mem_append.mp hr' with hr' | hr'
        · obtain ⟨y', hy', hfp'⟩ := inv.cover r' hr'
          exact absurd (hfp'.trans hfp) (hfresh y' hy')
        · rw [List.mem_singleton.mp hr']
    · rw [List.map_append, List.nodup_append]
      refine ⟨inv.nodupFp, by simp, ?_⟩
      intro a ha hb
      obtain ⟨x, hx, rfl⟩ := List.mem_map.mp ha
      have hfp : fingerprint x = fingerprint r := by simpa using hb
      exact hfresh x hx hfp
    · intro y hy
      rcases List.mem_append.mp hy with hy | hy
      · obtain ⟨l₁, l₂, heq, hlt⟩ := inv.firstMax y hy
        exact ⟨l₁, l₂ ++ [r], by rw [heq]; simp, hlt⟩
      · have hey : y = r := List.mem_singleton.mp hy
        refine ⟨processed, [], by rw [hey], ?_⟩
        intro r' hr' hfp
        rw [hey] at hfp
        obtain ⟨y', hy', hfp'⟩ := inv.cover r' hr'
        exact absurd (hfp'.trans hfp) (hfresh y' hy')
    · simpa using Nat.add_le_add_right inv.lenLe 1
  | true =>
    have hex : ∃ x ∈ acc, fingerprint x = fingerprint r := by
      have h := List.any_eq_true.mp hany
      simpa using h
    have hins : insertRecord acc r =
        acc.map (fun x => if fingerprint x = fingerprint r ∧
          x.scraped_at < r.scraped_at then r else x) := by
      simp [insertRecord, hany]
    rw [hins]
    set g := fun x : CanonicalJobRecord => if fingerprint x = fingerprint r ∧
      x.scraped_at < r.scraped_at then r else x with hg
    have hgfp : ∀ x, fingerprint (g x) = fingerprint x := by
      intro x
      by_cases h : fingerprint x = fingerprint r ∧ x.scraped_at < r.scraped_at
      · simp [hg, h, h.1]
      · simp [hg, h]
    constructor
    · intro r' hr'
      rcases List.mem_append.mp hr' with h | h
      · obtain ⟨y, hy, hfp⟩ := inv.cover r' h
        exact ⟨g y, List.mem_map.mpr ⟨y, hy, rfl⟩, by rw [hgfp y, hfp]⟩
      · obtain ⟨x, hx, hfpx⟩ := hex
        exact ⟨g x, List.mem_map.mpr ⟨x, hx, rfl⟩,
          by rw [hgfp x, hfpx, List.mem_singleton.mp h]⟩
    · intro y' hy' r' hr'
      obtain ⟨x, hx, rfl⟩ := List.mem_map.mp hy'
      intro hfp
      by_cases hrep : fingerprint x = fingerprint r ∧ x.scraped_at < r.scraped_at
      · have hgx : g x = r := by simp [hg, hrep]
        rw [hgx] at hfp ⊢
        rcases List.mem_append.mp hr' with h | h
        · have h1 := inv.maxAt x hx r' h (hfp.trans hrep.1.symm)
          exact Nat.le_trans h1 (Nat.le_of_lt hrep.2)
        · have her : r' = r := List.mem_singleton.mp h
          rw [her]
      · have hgx : g x = x := by simp [hg, hrep]
        rw [hgx] at hfp ⊢
        rcases List.mem_append.mp hr' with h | h
        · exact inv.maxAt x hx r' h hfp
        · have her : r' = r := List.mem_singleton.mp h
          rw [her] at hfp ⊢
          have hnlt : ¬ x.scraped_at < r.scraped_at :=
            fun hlt => hrep ⟨hfp.symm, hlt⟩
          omega
    · rw [List.map_map]
      have hmc : acc.map (fingerprint ∘ g) = acc.map fingerprint :=
        List.map_congr_left (fun x _ => hgfp x)
      rw [hmc]
      exact inv.nodupFp
    · intro y' hy'
      obtain ⟨x, hx, rfl⟩ := List.mem_map.mp hy'
      by_cases hrep : fingerprint x = fingerprint r ∧ x.scraped_at < r.scraped_at
      · have hgx : g x = r := by simp [hg, hrep]
        rw [hgx]
        refine ⟨processed, [], rfl, ?_⟩
        intro r' hr' hfp
        have h1 := inv.maxAt x hx r' hr' (hfp.trans hrep.1.symm)
        exact Nat.lt_of_le_of_lt h1 hrep.2
      · have hgx : g x = x := by simp [hg, hrep]
        rw [hgx]
        obtain ⟨l₁, l₂, heq, hlt⟩ := inv.firstMax x hx
        exact ⟨l₁, l₂ ++ [r], by rw [heq]; simp, hlt⟩
    · rw [List.length_map]
      simpa using Nat.le_succ_of_le inv.lenLe

lemma dedupInv_foldl :
    ∀ (rs processed acc : List CanonicalJobRecord), DedupInv processed acc →
      DedupInv (processed ++ rs) (rs.foldl insertRecord acc) := by
  intro rs
  induction rs with
  | nil => intro processed acc inv; simpa using inv
  | cons r rs ih =>
    intro processed acc inv
    have step := ih (processed ++ [r]) (insertRecord acc r)
      (dedupInv_step processed acc inv r)
    simpa [List.append_assoc] using step

lemma dedupInv_dedupe (rs : List CanonicalJobRecord) :
    DedupInv rs (dedupe rs) := by
  have h := dedupInv_foldl rs [] [] dedupInv_nil
  simpa [dedupe] using h

/-- The spec's concrete Silver scenario batch: items 1 and 2 share a
`job_url` (item 2 later), item 3 differs. -/
def scenarioBatch : ExtractionBatch :=
  { payloads := [raw1, raw2, raw3], manifest := ⟨3, 3, [], 1, []⟩ }

/-- C4: within a batch, deduplication keeps, per fingerprint, the first
record attaining the latest `scraped_at` and counts the rest as
intra-batch duplicates: every validated record's fingerprint is
represented in the output, each fingerprint exactly once, by a record
dominating its whole fingerprint group; on the spec's three-item scenario
it yields item 2's record and item 3's record with one duplicate
counted. -/
theorem claim_c4_intra_batch_dedup :
    (∀ (batch : ExtractionBatch),
      (∀ r ∈ validatedRecords batch,
        ∃ y ∈ (normalize_and_dedupe batch).1,
          fingerprint y = fingerprint r) ∧
      (∀ y ∈ (normalize_and_dedupe batch).1,
        ∀ r ∈ validatedRecords batch, fingerprint r = fingerprint y →
          r.scraped_at ≤ y.scraped_at) ∧
      (∀ y ∈ (normalize_and_dedupe batch).1,
        ∃ l₁ l₂, validatedRecords batch = l₁ ++ y :: l₂ ∧
          ∀ r ∈ l₁, fingerprint r = fingerprint y →
            r.scraped_at < y.scraped_at) ∧
      ((normalize_and_dedupe batch).1.map fingerprint).Nodup ∧
      (normalize_and_dedupe batch).1.length +
          (normalize_and_dedupe batch).2.intra_batch_duplicates =
        (validatedRecords batch).length) ∧
    ((normalize_and_dedupe scenarioBatch).1 = [rec2, rec3] ∧
      (normalize_and_dedupe scenarioBatch).2.intra_batch_duplicates = 1) := by
  constructor
  · intro batch
    have inv := dedupInv_dedupe (validatedRecords batch)
    refine ⟨inv.cover, inv.maxAt, inv.firstMax, inv.nodupFp, ?_⟩
    have hle := inv.lenLe
    show (dedupe (validatedRecords batch)).length +
      ((validatedRecords batch).length -
        (dedupe (validatedRecords batch)).length) =
      (validatedRecords batch).length
    omega
  · exact ⟨by decide, by decide⟩

/-- Witness for C4 at the concrete scenario: item 1's record (same
fingerprint as the surviving item 2 record, earlier `scraped_at`) is
dominated by the survivor, and its fingerprint is still represented in
the deduplicated output. -/
theorem claim_c4_witness :
    rec1.scraped_at ≤ rec2.scraped_at ∧
    ∃ y ∈ (normalize_and_dedupe scenarioBatch).1,
      fingerprint y = fingerprint rec1 :=
  ⟨(claim_c4_intra_batch_dedup.1 scenarioBatch).2.1 rec2 (by decide) rec1
      (by decide) (by decide),
   (claim_c4_intra_batch_dedup.1 scenarioBatch).1 rec1 (by decide)⟩

/-! ## C1 — idempotent incremental load -/

lemma comparableEq_refl (r : CanonicalJobRecord) : comparableEq r r = true := by
  simp [comparableEq]

lemma findByFingerprint_self :
    ∀ (rs : List CanonicalJobRecord), (rs.map fingerprint).Nodup →
      ∀ r ∈ rs, findByFingerprint rs (fingerprint r) = some r := by
  intro rs
  induction rs with
  | nil => intro _ r hr; exact absurd hr (List.not_mem_nil r)
  | cons x xs ih =>
    intro hnd r hr
    rcases List.mem_cons.mp hr with he | hm
    · rw [he]
      simp [findByFingerprint, List.find?_cons]
    · have hx : fingerprint x ∉ xs.map fingerprint := (List.nodup_cons.mp hnd).1
      have hne : fingerprint x ≠ fingerprint r := by
        intro he
        exact hx (he ▸ List.mem_map_of_mem fingerprint hm)
      have htail := ih (List.nodup_cons.mp hnd).2 r hm
      simp only [findByFingerprint] at htail ⊢
      simp [List.find?_cons, hne, htail]

lemma findByFingerprint_append_left (s t : GoldStore) (f : JobFingerprint)
    (hs : findByFingerprint s f = none) :
    findByFingerprint (s ++ t) f = findByFingerprint t f := by
  simp only [findByFingerprint] at hs ⊢
  rw [List.find?_append, hs, Option.none_or]

lemma loadAux_fresh :
    ∀ (rs : List CanonicalJobRecord) (s : GoldStore) (rep : LoadReport),
      (rs.map fingerprint).Nodup →
      (∀ r ∈ rs, findByFingerprint s (fingerprint r) = none) →
      loadAux rs s rep =
        (s ++ rs, { rep with inserted := rep.inserted + rs.length }) := by
  intro rs
  induction rs with
  | nil => intro s rep _ _; simp [loadAux]
  | cons r rs ih =>
    intro s rep hnd hnone
    have hfind : findByFingerprint s (fingerprint r) = none :=
      hnone r (List.mem_cons_self r rs)
    have hhead : fingerprint r ∉ rs.map fingerprint :=
      (List.nodup_cons.mp (by simpa using hnd)).1
    have hnone' : ∀ r' ∈ rs, findByFingerprint (s ++ [r]) (fingerprint r') = none := by
      intro r' hr'
      have hne : fingerprint r ≠ fingerprint r' := by
        intro he
        exact hhead (he ▸ List.mem_map_of_mem fingerprint hr')
      rw [findByFingerprint_append_left s [r] _ (hnone r' (List.mem_cons_of_mem r hr'))]
      simp [findByFingerprint, List.find?_cons, hne]
    have hstep : loadAux (r :: rs) s rep =
        loadAux rs (s ++ [r]) { rep with inserted := rep.inserted + 1 } := by
      simp [loadAux, upsertOne, hfind]
    rw [hstep, ih (s ++ [r]) _ (by simpa using (List.nodup_cons.mp (by simpa using hnd)).2) hnone']
    refine Prod.ext (by simp) ?_
    show ({ rep with inserted := rep.inserted + 1 + rs.length } : LoadReport) =
      { rep with inserted := rep.inserted + (r :: rs).length }
    have harith : rep.inserted + 1 + rs.length = rep.inserted + (r :: rs).length := by
      simp [List.length_cons]
      omega
    rw [harith]

lemma loadAux_unchanged :
    ∀ (rs : List CanonicalJobRecord) (s : GoldStore) (rep : LoadReport),
      (∀ r ∈ rs, ∃ e, findByFingerprint s (fingerprint r) = some e ∧
        comparableEq e r = true) →
      loadAux rs s rep =
        (s, { rep with skipped_unchanged := rep.skipped_unchanged + rs.length }) := by
  intro rs
  induction rs with
  | nil => intro s rep _; simp [loadAux]
  | cons r rs ih =>
    intro s rep hall
    obtain ⟨e, hfind, hcomp⟩ := hall r (List.mem_cons_self r rs)
    have hstep : loadAux (r :: rs) s rep =
        loadAux rs s { rep with skipped_unchanged := rep.skipped_unchanged + 1 } := by
      simp [loadAux, upsertOne, hfind, hcomp]
    rw [hstep, ih s _ (fun r' hr' => hall r' (List.mem_cons_of_mem r hr'))]
    refine Prod.ext rfl ?_
    show ({ rep with skipped_unchanged := rep.skipped_unchanged + 1 + rs.length } : LoadReport) =
      { rep with skipped_unchanged := rep.skipped_unchanged + (r :: rs).length }
    have harith : rep.skipped_unchanged + 1 + rs.length =
        rep.skipped_unchanged + (r :: rs).length := by
      simp [List.length_cons]
      omega
    rw [harith]

/-- C1 (amended): for a sequence with pairwise-distinct fingerprints loaded
into a store holding none of those fingerprints, the first load reports
`inserted = N, updated = 0`, the second load of the identical sequence
reports `inserted = 0, updated = 0` (all skipped unchanged), and leaves
the stored content unchanged. -/
theorem claim_c1_load_idempotent (rs : List CanonicalJobRecord) (s : GoldStore)
    (hnd : (rs.map fingerprint).Nodup)
    (hfresh : ∀ r ∈ rs, findByFingerprint s (fingerprint r) = none) :
    (load rs s).2 = ⟨rs.length, 0, 0⟩ ∧
    (load rs (load rs s).1).2 = ⟨0, 0, rs.length⟩ ∧
    (load rs (load rs s).1).1 = (load rs s).1 := by
  have h1 : load rs s = (s ++ rs, ⟨rs.length, 0, 0⟩) := by
    have h := loadAux_fresh rs s ⟨0, 0, 0⟩ hnd hfresh
    simpa [load] using h
  have hfind : ∀ r ∈ rs, findByFingerprint (s ++ rs) (fingerprint r) = some r := by
    intro r hr
    rw [findByFingerprint_append_left s rs _ (hfresh r hr)]
    exact findByFingerprint_self rs hnd r hr
  have h2 : load rs (s ++ rs) = (s ++ rs, ⟨0, 0, rs.length⟩) := by
    have h := loadAux_unchanged rs (s ++ rs) ⟨0, 0, 0⟩
      (fun r hr => ⟨r, hfind r hr, comparableEq_refl r⟩)
    simpa [load] using h
  have hs1 : (load rs s).1 = s ++ rs := by rw [h1]
  refine ⟨by rw [h1], ?_, ?_⟩
  · rw [hs1, h2]
  · rw [hs1, h2]

/-- A record sharing `rec1`'s natural key but with a different comparable
field. -/
def cexB : CanonicalJobRecord := { rec1 with job_title := "Engineer II" }

/-- Counterexample to C1 as stated: for the fixed sequence
`[rec1, cexB]` (two records with equal fingerprints but different
comparable content, N = 2) loaded into the empty (trivially consistent)
store, the first `load` reports `inserted = 1, updated = 1`, not
`inserted = N, updated = 0`. -/
theorem claim_c1_counterexample :
    (load [rec1, cexB] []).2.inserted = 1 ∧
    (load [rec1, cexB] []).2.updated = 1 ∧
    ¬((load [rec1, cexB] []).2.inserted = 2 ∧
      (load [rec1, cexB] []).2.updated = 0) := by
  exact ⟨by decide, by decide, by decide⟩

/-- Witness for C1 (amended) at the concrete deduplicated scenario output. -/
theorem claim_c1_witness :
    (load [rec2, rec3] []).2 = ⟨2, 0, 0⟩ ∧
    (load [rec2, rec3] (load [rec2, rec3] []).1).2 = ⟨0, 0, 2⟩ ∧
    (load [rec2, rec3] (load [rec2, rec3] []).1).1 = (load [rec2, rec3] []).1 :=
  claim_c1_load_idempotent [rec2, rec3] [] (by decide) (by decide)

/-! ## C8 — the browsing interface is read-only -/

/-- C8: every jobs API request and every jobs page render leaves the
stored table exactly as it found it — both handlers only read. -/
theorem claim_c8_read_only :
    (∀ (q : JobsQuery) (db : Except String (List Job)),
      (jobsGET q db).2 = db) ∧
    (∀ (p : PageParams) (db : List Job), (jobsPage p db).2 = db) := by
  constructor
  · intro q db
    cases db <;> rfl
  · intro p db
    rfl

/-! ## C9 — the jobs API handler always answers, with exact pagination -/

/-- C9: the jobs API returns a response on every request — a 500 JSON
error when the store access fails, otherwise a 200 body whose jobs were
selected with `skip = (page − 1) · limit` and whose metadata satisfies
`totalPages = ⌈totalCount / limit⌉` and `hasMore = page < totalPages`. -/
theorem claim_c9_get_handler (q : JobsQuery) (db : Except String (List Job))
    (hl : q.limit ≠ 0) :
    ((jobsGET q db).1.status = 200 ∨ (jobsGET q db).1.status = 500) ∧
    (∀ e, db = .error e →
      (jobsGET q db).1.status = 500 ∧
      (jobsGET q db).1.error = some "Failed to fetch jobs" ∧
      (jobsGET q db).1.pagination = none) ∧
    (∀ rows, db = .ok rows →
      (jobsGET q db).1.status = 200 ∧
      (jobsGET q db).1.error = none ∧
      (jobsGET q db).1.jobs =
        findManyJobs rows q.search q.location q.domain q.sortField q.sortOrder
          ((q.page - 1) * q.limit).toNat q.limit.toNat ∧
      (jobsGET q db).1.pagination = some
        ⟨q.page, q.limit,
         (countJobs rows q.search q.location q.domain : Int),
         ⌈((countJobs rows q.search q.location q.domain : Int) : ℚ) / (q.limit : ℚ)⌉,
         decide (q.page <
           ⌈((countJobs rows q.search q.location q.domain : Int) : ℚ) / (q.limit : ℚ)⌉)⟩) := by
  cases db with
  | error e =>
    refine ⟨Or.inr rfl, fun e' _ => ⟨rfl, rfl, rfl⟩, fun rows h => ?_⟩
    exact absurd h (by simp)
  | ok rows =>
    refine ⟨Or.inl rfl, fun e' h => absurd h (by simp), fun rows' h => ?_⟩
    have hr : rows' = rows := by
      injection h.symm
    subst hr
    exact ⟨rfl, rfl, rfl, rfl⟩

/-- The default query of the jobs API (page 1, limit 20, no filters). -/
def q0 : JobsQuery :=
  ⟨1, 20, "", "", "", SortField.scraped_at, SortOrder.desc⟩

/-- Witness for C9 at concrete requests: a reachable empty store answers
200, an unreachable store answers 500. -/
theorem claim_c9_witness :
    (jobsGET q0 (Except.ok [])).1.status = 200 ∧
    (jobsGET q0 (Except.error "down")).1.status = 500 :=
  ⟨((claim_c9_get_handler q0 (Except.ok []) (by decide)).2.2 [] rfl).1,
   ((claim_c9_get_handler q0 (Except.error "down") (by decide)).2.1 "down" rfl).1⟩

/-! ## C10 — the pagination control's page numbers -/

lemma intRangeAux_mem (n : Nat) :
    ∀ (lo x : Int), x ∈ intRangeAux lo n ↔ lo ≤ x ∧ x < lo + n := by
  induction n with
  | zero =>
    intro lo x
    simp only [intRangeAux, List.not_mem_nil, false_iff]
    omega
  | succ m ih =>
    intro lo x
    simp only [intRangeAux, List.mem_cons, ih (lo + 1) x]
    omega

lemma intRange_mem (lo hi x : Int) :
    x ∈ intRange lo hi ↔ lo ≤ x ∧ x ≤ hi := by
  rw [intRange, intRangeAux_mem]
  omega

lemma intRangeAux_chain (n : Nat) :
    ∀ lo : Int, (intRangeAux lo n).Chain' (· < ·) := by
  induction n with
  | zero => intro lo; simp [intRangeAux]
  | succ m ih =>
    intro lo
    cases m with
    | zero => simp [intRangeAux]
    | succ k =>
      have h := ih (lo + 1)
      simp only [intRangeAux] at h ⊢
      rw [List.chain'_cons]
      exact ⟨by omega, h⟩

lemma getPageNumbers_big (cp tp : Int) (h : ¬ tp ≤ 5) :
    getPageNumbers cp tp =
      [PageEntry.num 1] ++
      (if cp > 3 then [PageEntry.dots] else []) ++
      ((intRange (max 2 (cp - 1)) (min (tp - 1) (cp + 1))).map PageEntry.num) ++
      (if cp < tp - 2 then [PageEntry.dots] else []) ++
      [PageEntry.num tp] := by
  simp [getPageNumbers, h]

/-- C10: the pagination control renders nothing for at most one page; for
2–5 pages it lists exactly pages 1..totalPages in increasing order; past
5 pages the strip always starts at page 1, ends at the last page, and
every numbered button is within 1..totalPages. -/
theorem claim_c10_pagination :
    (∀ cp tc tp : Int, tp ≤ 1 → paginationRender cp tp tc = none) ∧
    (∀ cp tp : Int, 2 ≤ tp → tp ≤ 5 →
      getPageNumbers cp tp = (intRange 1 tp).map PageEntry.num ∧
      (intRange 1 tp).Chain' (· < ·) ∧
      (∀ x : Int, x ∈ intRange 1 tp ↔ 1 ≤ x ∧ x ≤ tp)) ∧
    (∀ cp tp : Int, 5 < tp →
      (getPageNumbers cp tp).head? = some (PageEntry.num 1) ∧
      (getPageNumbers cp tp).getLast? = some (PageEntry.num tp) ∧
      (∀ n : Int, PageEntry.num n ∈ getPageNumbers cp tp →
        1 ≤ n ∧ n ≤ tp)) := by
  refine ⟨?_, ?_, ?_⟩
  · intro cp tc tp h
    simp [paginationRender, h]
  · intro cp tp h2 h5
    refine ⟨by simp [getPageNumbers, h5], intRangeAux_chain _ 1,
      fun x => intRange_mem 1 tp x⟩
  · intro cp tp h5
    have hn : ¬ tp ≤ 5 := by omega
    refine ⟨?_, ?_, ?_⟩
    · simp [getPageNumbers_big cp tp hn, List.append_assoc]
    · rw [getPageNumbers_big cp tp hn]
      exact List.getLast?_concat _
    · intro n hn'
      rw [getPageNumbers_big cp tp hn] at hn'
      rcases List.mem_append.mp hn' with h4 | h4
      · rcases List.mem_append.mp h4 with h3 | h3
        · rcases List.mem_append.mp h3 with h2 | h2
          · rcases List.mem_append.mp h2 with h1 | h1
            · have he : n = 1 := by simpa using h1
              omega
            · exfalso
              revert h1
              split <;> simp
          · have hm : n ∈ intRange (max 2 (cp - 1)) (min (tp - 1) (cp + 1)) := by
              simpa using h2
            rw [intRange_mem] at hm
            omega
        · exfalso
          revert h3
          split <;> simp
      · have he : n = tp := by simpa using h4
        omega

/-- Witness for C10 at concrete page counts: one page renders nothing,
three pages list 1–3, nine pages start the strip at page 1. -/
theorem claim_c10_witness :
    paginationRender 1 1 0 = none ∧
    getPageNumbers 9 3 = (intRange 1 3).map PageEntry.num ∧
    (getPageNumbers 4 9).head? = some (PageEntry.num 1) :=
  ⟨claim_c10_pagination.1 1 0 1 (by decide),
   (claim_c10_pagination.2.1 9 3 (by decide) (by decide)).1,
   (claim_c10_pagination.2.2 4 9 (by decide)).1⟩
